import Mathlib

/-!
Red/Black grid breakup (`rbbreakup.c`).

A shallow embedding of the grid decomposition tool: the header and data loader
(`ReadGridHdr`, `ReadGridData`, `LoadGridFile`), the chunk planner
(`GetChunkExtents`), the sub-grid writer (`PrintSubgridToFile`) and the driver
(`BreakGridFile`, `main`).

Modelling conventions.
* C `int` values are `Int`; `/` and `%` are the truncating `Int.tdiv` and
  `Int.tmod` of C. An `int` has 32 bits: the products that `GetChunkExtents` and
  `LoadGridFile` compute in `int` are wrapped by `wrapInt` (two's complement), and
  `size_t` has 64 bits. The loop bound `IChunk * JChunk` of `BreakGridFile` and the
  index `Idx1D` are kept as mathematical values.
* C `double` values are of the type `Dbl`: a finite value (kept as a rational), an
  infinity, or a NaN, with the comparisons of C; the text rendering done by `%g` is kept
  symbolic (a written value is a token carrying the value that was printed).
* `fscanf`, `fopen`, `malloc` and the success of `fprintf`/`fputs` belong to the
  C library and the operating system; they enter as parameters.
-/

namespace RBBreakup

/-! ## Machine integers -/

/-- The largest value of an `int`. -/
def INT_MAX : Int := 2147483647

/-- The value of an `int` expression whose mathematical value is `x`: the residue of `x`
modulo `2^32` that lies in `-2^31 .. 2^31-1`. -/
def wrapInt (x : Int) : Int := (x + 2147483648) % 4294967296 - 2147483648

/-- The argument of `malloc` in `LoadGridFile`, `*cols_p * *rows_p * sizeof *g`: the
product of the two `int`s is computed in `int`, then converted to `size_t` and multiplied
by the 8 bytes of a `double` in `size_t`. -/
def allocSize (cols rows : Int) : Int :=
  (wrapInt (cols * rows) % 18446744073709551616 * 8) % 18446744073709551616

/-! ## Chunk planner -/

/-- The four local extents written through the output pointers of
`GetChunkExtents` (all inclusive, in global grid coordinates). -/
structure Extents where
  startrow : Int
  endrow : Int
  startcol : Int
  endcol : Int
  deriving DecidableEq, Repr

/-- `mychunkrow = rank / ncolchunks` (integer division of C). -/
def mychunkrow (rank ncolchunks : Int) : Int := Int.tdiv rank ncolchunks

/-- `mychunkcol = rank % ncolchunks`. -/
def mychunkcol (rank ncolchunks : Int) : Int := Int.tmod rank ncolchunks

/-- The extents held by the output variables of `GetChunkExtents` after the four
assignments of lines 242-246, before any ghost line is added. Each product is computed in
`int` before the division and so is wrapped. The steps by one are not wrapped: they leave
the range of `int` only next to a quotient that is the least or the largest `int`. -/
def innerExtents (rank global_nrows global_ncols nrowchunks ncolchunks : Int) : Extents :=
  { startrow := Int.tdiv (wrapInt (mychunkrow rank ncolchunks * global_nrows)) nrowchunks
    endrow :=
      Int.tdiv (wrapInt ((mychunkrow rank ncolchunks + 1) * global_nrows)) nrowchunks - 1
    startcol := Int.tdiv (wrapInt (mychunkcol rank ncolchunks * global_ncols)) ncolchunks
    endcol :=
      Int.tdiv (wrapInt ((mychunkcol rank ncolchunks + 1) * global_ncols)) ncolchunks - 1 }

/-- The function `GetChunkExtents`: the inner extents, then one ghost line to the north
unless in the top row of chunks, to the east unless in the easternmost column, to the
south unless in the bottom row, to the west unless in the westernmost column. -/
def GetChunkExtents (rank global_nrows global_ncols nrowchunks ncolchunks : Int) : Extents :=
  let e := innerExtents rank global_nrows global_ncols nrowchunks ncolchunks
  let e := if mychunkrow rank ncolchunks > 0 then { e with startrow := e.startrow - 1 } else e
  let e := if mychunkcol rank ncolchunks < ncolchunks - 1 then { e with endcol := e.endcol + 1 } else e
  let e := if mychunkrow rank ncolchunks < nrowchunks - 1 then { e with endrow := e.endrow + 1 } else e
  let e := if mychunkcol rank ncolchunks > 0 then { e with startcol := e.startcol - 1 } else e
  e

/-- Cell `(r, c)` lies within the extents. -/
def Extents.contains (e : Extents) (r c : Int) : Prop :=
  e.startrow ≤ r ∧ r ≤ e.endrow ∧ e.startcol ≤ c ∧ c ≤ e.endcol

instance (e : Extents) (r c : Int) : Decidable (e.contains r c) := by
  unfold Extents.contains; infer_instance

/-- The row range `[startrow, endrow]` of the extents. -/
def Extents.rowRange (e : Extents) : Finset Int := Finset.Icc e.startrow e.endrow

/-- The column range `[startcol, endcol]` of the extents. -/
def Extents.colRange (e : Extents) : Finset Int := Finset.Icc e.startcol e.endcol

/-! ## Doubles -/

/-- A C `double`: a finite value, an infinity, or a NaN. -/
inductive Dbl
  | num (q : ℚ)
  | posInf
  | negInf
  | nan
  deriving DecidableEq, Repr

/-- A numeric literal as a `double`. -/
instance instOfNatDbl (n : Nat) : OfNat Dbl n := ⟨Dbl.num (OfNat.ofNat n)⟩

/-- The comparison `x < y` of C on doubles: false as soon as one side is a NaN. -/
def Dbl.blt : Dbl → Dbl → Bool
  | .num a, .num b => decide (a < b)
  | .num _, .posInf => true
  | .negInf, .num _ => true
  | .negInf, .posInf => true
  | _, _ => false

/-- The comparison `x <= y` of C on doubles: false as soon as one side is a NaN. -/
def Dbl.ble : Dbl → Dbl → Bool
  | .num a, .num b => decide (a ≤ b)
  | .num _, .posInf => true
  | .negInf, .num _ => true
  | .negInf, .posInf => true
  | .negInf, .negInf => true
  | .posInf, .posInf => true
  | _, _ => false

instance instLTDbl : LT Dbl := ⟨fun a b => Dbl.blt a b = true⟩

instance instLEDbl : LE Dbl := ⟨fun a b => Dbl.ble a b = true⟩

instance instDecidableLtDbl (a b : Dbl) : Decidable (a < b) :=
  inferInstanceAs (Decidable (Dbl.blt a b = true))

instance instDecidableLeDbl (a b : Dbl) : Decidable (a ≤ b) :=
  inferInstanceAs (Decidable (Dbl.ble a b = true))

/-! ## Grid loader -/

/-- The two conversions of `fscanf` used by the loader, on a stream state `S`:
`scanInt` is `fscanf(fp, "%d", p)` and `scanDbl` is `fscanf(fp, "%lf", p)`; the result
is `none` when the call returns less than 1, else the value stored and the stream after
the conversion. -/
structure Scanner (S : Type) where
  scanInt : S → Option (Int × S)
  scanDbl : S → Option (Dbl × S)

/-- Why a load failed (every one of them is reported by its own message and a return
value of -1). -/
inductive LoadError
  | openFailed
  | headerFormat
  | badDimension
  | badIterations
  | badEpsilon
  | allocFailed
  | dataFormat (r c : Int)
  deriving DecidableEq, Repr

/-- Equality of results is decidable. -/
instance instDecidableEqExcept {ε α : Type} [DecidableEq ε] [DecidableEq α] :
    DecidableEq (Except ε α)
  | .ok a, .ok b =>
    if h : a = b then isTrue (by rw [h]) else isFalse (by intro h1; cases h1; exact h rfl)
  | .error a, .error b =>
    if h : a = b then isTrue (by rw [h]) else isFalse (by intro h1; cases h1; exact h rfl)
  | .ok _, .error _ => isFalse (by intro h; cases h)
  | .error _, .ok _ => isFalse (by intro h; cases h)

/-- The values stored through `rows_p`, `cols_p`, `niter_p`, `eps_p` by `ReadGridHdr`. -/
structure GridHdr where
  rows : Int
  cols : Int
  niter : Int
  eps : Dbl
  deriving DecidableEq, Repr

/-- The function `ReadGridHdr`: four conversions in the order rows, cols, eps, niter
(the `||` chain stops at the first that fails), then the three range checks. -/
def ReadGridHdr {S : Type} (sc : Scanner S) (fp : S) : Except LoadError (GridHdr × S) :=
  match sc.scanInt fp with
  | none => .error .headerFormat
  | some (rows, fp1) =>
    match sc.scanInt fp1 with
    | none => .error .headerFormat
    | some (cols, fp2) =>
      match sc.scanDbl fp2 with
      | none => .error .headerFormat
      | some (eps, fp3) =>
        match sc.scanInt fp3 with
        | none => .error .headerFormat
        | some (niter, fp4) =>
          if rows ≤ 0 ∨ cols ≤ 0 then .error .badDimension
          else if niter ≤ 0 then .error .badIterations
          else if eps < 0 then .error .badEpsilon
          else .ok ({ rows := rows, cols := cols, niter := niter, eps := eps }, fp4)

/-- Inner loop of `ReadGridData`: `n` iterations are left, the column counter is `c`. -/
def readCols {S : Type} (sc : Scanner S) (r : Int) :
    Nat → Int → S → Except LoadError (List Dbl × S)
  | 0, _, fp => .ok ([], fp)
  | n + 1, c, fp =>
    match sc.scanDbl fp with
    | none => .error (.dataFormat r c)
    | some (v, fp1) =>
      match readCols sc r n (c + 1) fp1 with
      | .error e => .error e
      | .ok (vs, fp2) => .ok (v :: vs, fp2)

/-- Outer loop of `ReadGridData`: `n` iterations are left, the row counter is `r`. -/
def readRows {S : Type} (sc : Scanner S) (cols : Int) :
    Nat → Int → S → Except LoadError (List Dbl × S)
  | 0, _, fp => .ok ([], fp)
  | n + 1, r, fp =>
    match readCols sc r cols.toNat 0 fp with
    | .error e => .error e
    | .ok (vs, fp1) =>
      match readRows sc cols n (r + 1) fp1 with
      | .error e => .error e
      | .ok (ws, fp2) => .ok (vs ++ ws, fp2)

/-- The function `ReadGridData`: the values are stored at `g[0]`, `g[1]`, ... in the order
in which they are read. -/
def ReadGridData {S : Type} (sc : Scanner S) (fp : S) (rows cols : Int) :
    Except LoadError (List Dbl × S) :=
  readRows sc cols rows.toNat 0 fp

/-- What `LoadGridFile` hands back on success: the four header values and the array. -/
structure Grid where
  rows : Int
  cols : Int
  niter : Int
  eps : Dbl
  g : List Dbl
  deriving DecidableEq, Repr

/-- The function `LoadGridFile`. `fopenR name` is `fopen(name, "r")` (`none` for `NULL`),
`malloc n` tells whether the allocation of `n` bytes succeeds; the size asked for is
`allocSize`, the product as the code computes it. The list returned stands for the array
`g` when the allocated array holds `rows * cols` elements, which is so when the product
fits an `int`. -/
def LoadGridFile {S : Type} (sc : Scanner S) (fopenR : String → Option S)
    (malloc : Int → Bool) (filename : String) : Except LoadError Grid :=
  match fopenR filename with
  | none => .error .openFailed
  | some fp =>
    match ReadGridHdr sc fp with
    | .error e => .error e
    | .ok (h, fp1) =>
      if malloc (allocSize h.cols h.rows) then
        match ReadGridData sc fp1 h.rows h.cols with
        | .error e => .error e
        | .ok (g, _) =>
          .ok { rows := h.rows, cols := h.cols, niter := h.niter, eps := h.eps, g := g }
      else .error .allocFailed

/-- What a chunk file is made of: an integer printed by `%d`, the threshold printed by
`%g`, a grid element printed by `"%7g "` (`none` stands for a read outside the array),
and a newline. -/
inductive Tok
  | int (i : Int)
  | dbl (x : Dbl)
  | cell (x : Option Dbl)
  | nl
  deriving DecidableEq, Repr

/-- The macro `Idx1D(row, col, rowlen)`. -/
def Idx1D (row col rowlen : Int) : Int := row * rowlen + col

/-- The array access `g[i]`; `none` outside the array. -/
def gridAt (g : List Dbl) (i : Int) : Option Dbl :=
  if 0 ≤ i then g[i.toNat]? else none

/-- How a call of the writer ended: success (return value 0) or one of the three
failures (return value -1, each with its own message). -/
inductive WriteStatus
  | ok
  | sizeError
  | headerError
  | dataError
  deriving DecidableEq, Repr

/-- The value returned by `PrintSubgridToFile`. -/
def WriteStatus.code : WriteStatus → Int
  | .ok => 0
  | _ => -1

/-- Inner loop of `PrintSubgridToFile` for row `r`: `n` iterations are left, the column
is `c`, and `k` output calls were made on the stream before. `fp k` tells whether the
`k`-th output call on the stream succeeds. The result is whether every `fprintf`
succeeded, the number of output calls made so far, and the text written. -/
def printCols (global_ncols : Int) (g : List Dbl) (fp : Nat → Bool) (r : Int) :
    Nat → Int → Nat → Bool × Nat × List Tok
  | 0, _, k => (true, k, [])
  | n + 1, c, k =>
    if fp k then
      let res := printCols global_ncols g fp r n (c + 1) (k + 1)
      (res.1, res.2.1, Tok.cell (gridAt g (Idx1D r c global_ncols)) :: res.2.2)
    else (false, k + 1, [])

/-- Outer loop of `PrintSubgridToFile`: `n` iterations are left, the row is `r`. The
result of `fputs` is not looked at by the code. -/
def printRows (global_ncols : Int) (g : List Dbl) (fp : Nat → Bool) (startcol endcol : Int) :
    Nat → Int → Nat → Bool × List Tok
  | 0, _, _ => (true, [])
  | n + 1, r, k =>
    let row := printCols global_ncols g fp r (endcol - startcol + 1).toNat startcol k
    if row.1 then
      let nl := if fp row.2.1 then [Tok.nl] else []
      let rest := printRows global_ncols g fp startcol endcol n (r + 1) (row.2.1 + 1)
      (rest.1, row.2.2 ++ nl ++ rest.2)
    else (false, row.2.2)

/-- The header written by the single `fprintf` of format `"%d\n%d\n%g\n%d\n"`. -/
def chunkHeader (e : Extents) (eps : Dbl) (niter : Int) : List Tok :=
  [Tok.int (e.endcol - e.startcol + 1), Tok.nl, Tok.int (e.endrow - e.startrow + 1), Tok.nl,
    Tok.dbl eps, Tok.nl, Tok.int niter, Tok.nl]

/-- The body of `PrintSubgridToFile` once the extents are known: the size check, the
header, the rows. The result is the status and the text written to the stream. -/
def writeChunk (e : Extents) (global_ncols : Int) (eps : Dbl) (niter : Int) (g : List Dbl)
    (fp : Nat → Bool) : WriteStatus × List Tok :=
  if e.endrow - e.startrow < 3 ∨ e.endcol - e.startcol < 3 then (.sizeError, [])
  else if fp 0 then
    let body := printRows global_ncols g fp e.startcol e.endcol
      (e.endrow - e.startrow + 1).toNat e.startrow 1
    (if body.1 then .ok else .dataError, chunkHeader e eps niter ++ body.2)
  else (.headerError, [])

/-- The function `PrintSubgridToFile`; the chunk counts are handed to `GetChunkExtents`
as `nrowchunks = JChunk` and `ncolchunks = IChunk`. -/
def PrintSubgridToFile (rank global_ncols global_nrows IChunk JChunk : Int) (eps : Dbl)
    (niter : Int) (g : List Dbl) (fp : Nat → Bool) : WriteStatus × List Tok :=
  writeChunk (GetChunkExtents rank global_nrows global_ncols JChunk IChunk)
    global_ncols eps niter g fp

/-! ## Driver -/

/-- The C library and the file system as the run sees them. -/
structure World (S : Type) where
  sc : Scanner S
  fopenR : String → Option S
  malloc : Int → Bool
  fopenW : String → Bool
  fwrite : String → Nat → Bool

/-- The name built by `sprintf(filepath, "%s.%d", filebase, rank)`. -/
def breakFilePath (filebase : String) (rank : Int) : String :=
  filebase ++ "." ++ toString rank

/-- The function `OpenBreakFile`: the path of the stream opened for writing, `none` for
`NULL`. `fopenW path` tells whether the name can be allocated and the file opened. -/
def OpenBreakFile {S : Type} (w : World S) (filebase : String) (rank : Int) : Option String :=
  if w.fopenW (breakFilePath filebase rank) then some (breakFilePath filebase rank) else none

/-- A destination opened by the run: the rank it was opened for, its path, and the text
written to it. -/
structure ChunkFile where
  rank : Int
  path : String
  content : List Tok
  deriving DecidableEq, Repr

/-- The `for` loop of `BreakGridFile`: `n` iterations are left, the loop variable is
`rank`. The result is the value of `rank` when the loop is left and the destinations
opened, in the order of opening. -/
def breakLoop {S : Type} (w : World S) (filebase : String) (IChunk JChunk : Int)
    (global_ncols global_nrows niter : Int) (eps : Dbl) (gg : List Dbl) :
    Nat → Int → Int × List ChunkFile
  | 0, rank => (rank, [])
  | n + 1, rank =>
    match OpenBreakFile w filebase rank with
    | none => (rank, [])
    | some path =>
      let res := PrintSubgridToFile rank global_ncols global_nrows IChunk JChunk eps niter gg
        (w.fwrite path)
      if res.1.code ≠ 0 then (rank, [{ rank := rank, path := path, content := res.2 }])
      else
        let rest := breakLoop w filebase IChunk JChunk global_ncols global_nrows niter eps gg
          n (rank + 1)
        (rest.1, { rank := rank, path := path, content := res.2 } :: rest.2)

/-- The function `BreakGridFile`: the call `LoadGridFile (infile, &global_ncols,
&global_nrows, &niter, &eps, &gg)` stores the first header value in `global_ncols` and
the second in `global_nrows`; the value returned is -1 when the load fails and else
`rank >= (IChunk * JChunk)`. -/
def BreakGridFile {S : Type} (w : World S) (infile filebase : String) (IChunk JChunk : Int) :
    Int × List ChunkFile :=
  match LoadGridFile w.sc w.fopenR w.malloc infile with
  | .error _ => (-1, [])
  | .ok grid =>
    let res := breakLoop w filebase IChunk JChunk grid.rows grid.cols grid.niter grid.eps
      grid.g (IChunk * JChunk).toNat 0
    (if res.1 ≥ IChunk * JChunk then 1 else 0, res.2)

/-- The fields of `opt_struct` that `main` uses once `parse_args` has returned 0:
`ibreak` is the value given with `-ichunk`, `jbreak` the value given with `-jchunk`. -/
structure opt_struct where
  inpfile : String
  resfile : String
  ibreak : Int
  jbreak : Int

/-- The exit status `EXIT_SUCCESS`. -/
def EXIT_SUCCESS : Int := 0

/-- The exit status `EXIT_FAILURE`. -/
def EXIT_FAILURE : Int := 1

/-- The function `main`; `parsed` is `none` when `parse_args` returns non-zero. -/
def main {S : Type} (w : World S) (parsed : Option opt_struct) : Int × List ChunkFile :=
  match parsed with
  | none => (EXIT_FAILURE, [])
  | some opts =>
    let res := BreakGridFile w opts.inpfile opts.resfile opts.ibreak opts.jbreak
    (if res.1 ≠ 0 then EXIT_FAILURE else EXIT_SUCCESS, res.2)

/-- Rank `rank` fails: its destination cannot be opened, or the writer returns
non-zero for it. -/
def rankFails {S : Type} (w : World S) (filebase : String) (IChunk JChunk : Int) (grid : Grid)
    (rank : Int) : Bool :=
  match OpenBreakFile w filebase rank with
  | none => true
  | some path =>
    decide ((PrintSubgridToFile rank grid.rows grid.cols IChunk JChunk grid.eps grid.niter
      grid.g (w.fwrite path)).1.code ≠ 0)

/-- Skip the newlines in front of the next field. -/
def skipNl : List Tok → List Tok
  | Tok.nl :: rest => skipNl rest
  | s => s

/-- The loader's conversions on text written by the writer: `%d` reads back an integer
printed by `%d`; `%lf` reads back a number printed by `%g`, which is the value rounded
to six significant digits, `fmt x`. -/
def tokScanner (fmt : Dbl → Dbl) : Scanner (List Tok) where
  scanInt s :=
    match skipNl s with
    | Tok.int i :: rest => some (i, rest)
    | _ => none
  scanDbl s :=
    match skipNl s with
    | Tok.int i :: rest => some (Dbl.num i, rest)
    | Tok.dbl x :: rest => some (fmt x, rest)
    | Tok.cell (some x) :: rest => some (fmt x, rest)
    | _ => none

/-- A world whose input file `"in"` holds `text`, where every allocation, every open and
every output call succeeds. -/
def goodWorld (text : List Tok) : World (List Tok) where
  sc := tokScanner id
  fopenR name := if name = "in" then some text else none
  malloc _ := true
  fopenW _ := true
  fwrite _ _ := true

/-- The world of `goodWorld`, except that no destination can be opened. -/
def closedWorld (text : List Tok) : World (List Tok) :=
  { goodWorld text with fopenW := fun _ => false }

/-- The values `0..15` of the 4 x 4 grid of scenario A. -/
def grid16 : List Dbl := [0, 1, 2, 3, 4, 5, 6, 7, 8, 9, 10, 11, 12, 13, 14, 15]

/-- The input file of scenario A: header `4 4 0 10`, then the values `0..15`. -/
def file4x4 : List Tok :=
  [Tok.int 4, Tok.int 4, Tok.dbl 0, Tok.int 10] ++ grid16.map (fun x => Tok.cell (some x))

/-- The values `0..23` of a grid of 6 rows and 4 columns. -/
def grid24 : List Dbl :=
  [0, 1, 2, 3, 4, 5, 6, 7, 8, 9, 10, 11, 12, 13, 14, 15, 16, 17, 18, 19, 20, 21, 22, 23]

/-- An input file with the header `4 6 0 10` and the values `0..23`. -/
def file4x6 : List Tok :=
  [Tok.int 4, Tok.int 6, Tok.dbl 0, Tok.int 10] ++ grid24.map (fun x => Tok.cell (some x))

/-- The input file of scenario C: the header stops after the threshold, the iteration
count is missing. -/
def fileNoIter : List Tok := [Tok.int 4, Tok.int 4, Tok.dbl 0]

/-- The world of `goodWorld`, except that every allocation fails. -/
def noMemWorld (text : List Tok) : World (List Tok) :=
  { goodWorld text with malloc := fun _ => false }

/-! ## Comparisons of doubles with zero -/

/-- An `int` expression whose value is in the range of `int` is not changed by the wrap. -/
theorem wrapInt_of_range {x : Int} (h0 : -2147483648 ≤ x) (h1 : x ≤ INT_MAX) :
    wrapInt x = x := by
  unfold INT_MAX at h1
  unfold wrapInt
  omega

/-- A product of a block index and a dimension that fits an `int` is not changed by the
wrap. -/
theorem wrapInt_block {k R N : Int} (hR : 0 < R) (hNR : N * R ≤ INT_MAX) (hk0 : 0 ≤ k)
    (hk1 : k ≤ N) : wrapInt (k * R) = k * R := by
  have h0 : 0 ≤ k * R := by positivity
  have h1 : k * R ≤ N * R := by nlinarith
  exact wrapInt_of_range (by omega) (by omega)

/-- The wrapped value is an `int`. -/
theorem wrapInt_le (x : Int) : wrapInt x ≤ INT_MAX := by
  unfold wrapInt INT_MAX
  omega

/-- The truncated quotient of a value by a positive divisor is at most the floor
quotient of a non-negative bound of the value. -/
theorem tdiv_le_of_le {w n b : Int} (hn : 0 < n) (hb : 0 ≤ b) (hw : w ≤ b) :
    Int.tdiv w n ≤ b / n := by
  have hbn : 0 ≤ b / n := Int.ediv_nonneg hb (le_of_lt hn)
  by_cases h : 0 ≤ w
  · rw [Int.tdiv_eq_ediv h (le_of_lt hn)]
    exact Int.ediv_le_ediv hn hw
  · have h1 : Int.tdiv w n = -((-w) / n) := by
      have : w = -(-w) := by ring
      rw [this, Int.neg_tdiv, Int.tdiv_eq_ediv (by omega) (le_of_lt hn)]
      simp
    have h2 : 0 ≤ (-w) / n := Int.ediv_nonneg (by omega) (le_of_lt hn)
    omega

theorem tdiv_of_nonneg {a b : Int} (ha : 0 ≤ a) (hb : 0 < b) : Int.tdiv a b = a / b :=
  Int.tdiv_eq_ediv ha (le_of_lt hb)

theorem tmod_of_nonneg {a b : Int} (ha : 0 ≤ a) (hb : 0 < b) : Int.tmod a b = a % b :=
  Int.tmod_eq_emod ha (le_of_lt hb)

/-- Block `k` of the floor partition of `[0, R)` into `N` blocks holds `r` exactly when
`k = (N * (r + 1) - 1) / R`. -/
theorem block_iff {R N r k : Int} (hR : 0 < R) (hN : 0 < N) :
    (k * R / N ≤ r ∧ r ≤ (k + 1) * R / N - 1) ↔ k = (N * (r + 1) - 1) / R := by
  have h1 : k * R / N ≤ r ↔ k * R < (r + 1) * N := by
    rw [← Int.lt_add_one_iff, Int.ediv_lt_iff_lt_mul hN]
  have h2 : r ≤ (k + 1) * R / N - 1 ↔ (r + 1) * N ≤ (k + 1) * R := by
    rw [← Int.le_ediv_iff_mul_le hN]; omega
  have h3 : k ≤ (N * (r + 1) - 1) / R ↔ k * R ≤ N * (r + 1) - 1 := Int.le_ediv_iff_mul_le hR
  have h4 : (N * (r + 1) - 1) / R < k + 1 ↔ N * (r + 1) - 1 < (k + 1) * R :=
    Int.ediv_lt_iff_lt_mul hR
  rw [h1, h2]
  constructor
  · rintro ⟨a, b⟩
    have := h3.2 (by linarith)
    have := h4.2 (by linarith)
    omega
  · intro h
    have a := h3.1 (by omega)
    have b := h4.1 (by omega)
    constructor <;> linarith

/-- The block index of a row of the grid is a valid chunk row. -/
theorem block_index_range {R N r : Int} (hR : 0 < R) (hN : 0 < N) (h0 : 0 ≤ r) (h1 : r < R) :
    0 ≤ (N * (r + 1) - 1) / R ∧ (N * (r + 1) - 1) / R < N := by
  constructor
  · apply Int.ediv_nonneg _ (le_of_lt hR)
    nlinarith
  · rw [Int.ediv_lt_iff_lt_mul hR]
    nlinarith

theorem rank_div {M l : Int} (k : Int) (hl0 : 0 ≤ l) (hl : l < M) :
    (k * M + l) / M = k := by
  have hM : M ≠ 0 := by omega
  rw [add_comm, Int.add_mul_ediv_right _ _ hM, Int.ediv_eq_zero_of_lt hl0 hl]; simp

theorem rank_mod {M l : Int} (k : Int) (hl0 : 0 ≤ l) (hl : l < M) :
    (k * M + l) % M = l := by
  rw [add_comm, Int.add_mul_emod_self, Int.emod_eq_of_lt hl0 hl]

/-- Chunk row and column of a rank of the chunk grid. -/
theorem chunk_coords {rank N M : Int} (hM : 0 < M) (h0 : 0 ≤ rank) (h1 : rank < N * M) :
    mychunkrow rank M = rank / M ∧ mychunkcol rank M = rank % M ∧
      0 ≤ rank / M ∧ rank / M < N ∧ 0 ≤ rank % M ∧ rank % M < M ∧
      rank = rank / M * M + rank % M := by
  refine ⟨tdiv_of_nonneg h0 hM, tmod_of_nonneg h0 hM, Int.ediv_nonneg h0 (le_of_lt hM), ?_,
    Int.emod_nonneg _ (ne_of_gt hM), Int.emod_lt_of_pos _ hM, ?_⟩
  · rw [Int.ediv_lt_iff_lt_mul hM]; exact h1
  · have := Int.ediv_add_emod rank M
    linarith [mul_comm M (rank / M)]

/-- The inner extents of a rank of the chunk grid, in terms of floor division, when the
products fit an `int`. -/
theorem innerExtents_eq {rank R C N M : Int} (hR : 0 < R) (hC : 0 < C) (hN : 0 < N)
    (hM : 0 < M) (hNR : N * R ≤ INT_MAX) (hMC : M * C ≤ INT_MAX)
    (h0 : 0 ≤ rank) (h1 : rank < N * M) :
    innerExtents rank R C N M =
      { startrow := rank / M * R / N
        endrow := (rank / M + 1) * R / N - 1
        startcol := rank % M * C / M
        endcol := (rank % M + 1) * C / M - 1 } := by
  obtain ⟨hk, hl, k0, k1, l0, l1, _⟩ := chunk_coords hM h0 h1
  simp only [innerExtents, hk, hl, wrapInt_block hR hNR k0 (le_of_lt k1),
    wrapInt_block hR hNR (by omega : 0 ≤ rank / M + 1) (by omega : rank / M + 1 ≤ N),
    wrapInt_block hC hMC l0 (le_of_lt l1),
    wrapInt_block hC hMC (by omega : 0 ≤ rank % M + 1) (by omega : rank % M + 1 ≤ M)]
  rw [tdiv_of_nonneg (by positivity) hN, tdiv_of_nonneg (by positivity) hN,
    tdiv_of_nonneg (by positivity) hM, tdiv_of_nonneg (by positivity) hM]

/-! ## Partition coverage -/

/-- C1 as stated fails: for a grid of 90000 rows and 4 columns cut into 30000 row chunks
and 1 column chunk the product `(mychunkrow+1) * global_nrows` leaves the range of `int`
from chunk row 23860 on; the inner extent of rank 29999 is rows `-53168 .. -53166`, and
the cell `(89999, 0)` of the grid lies in the inner extent of no rank, as no inner
`endrow` is above `INT_MAX / 30000 - 1 = 71581`. -/
theorem partition_coverage_overflow :
    ((0 : Int) < 90000 ∧ (0 : Int) < 4 ∧ (0 : Int) < 30000 ∧ (0 : Int) < 1) ∧
    innerExtents 29999 90000 4 30000 1 = ⟨-53168, -53166, 0, 3⟩ ∧
    ¬ ∃ rank : Int, 0 ≤ rank ∧ rank < 30000 * 1 ∧
      (innerExtents rank 90000 4 30000 1).contains 89999 0 := by
  refine ⟨by decide, by decide, ?_⟩
  rintro ⟨rank, _, _, _, h, _⟩
  have h1 : Int.tdiv (wrapInt ((mychunkrow rank 1 + 1) * 90000)) 30000 ≤ INT_MAX / 30000 :=
    tdiv_le_of_le (by decide) (by decide) (wrapInt_le _)
  have h2 : INT_MAX / 30000 = 71582 := by decide
  simp only [innerExtents] at h
  omega

/-- C1, amended. For positive grid dimensions and chunk counts whose products
`nrowchunks * global_nrows` and `ncolchunks * global_ncols` fit an `int`, the inner
(pre-halo) extents of the ranks `0 .. nrowchunks*ncolchunks-1` tile the grid: every cell
of `[0, global_nrows) x [0, global_ncols)` lies in the inner extent of exactly one rank,
and no inner extent holds a cell outside the grid. -/
theorem partition_coverage (global_nrows global_ncols nrowchunks ncolchunks : Int)
    (hR : 0 < global_nrows) (hC : 0 < global_ncols)
    (hN : 0 < nrowchunks) (hM : 0 < ncolchunks)
    (hNR : nrowchunks * global_nrows ≤ INT_MAX) (hMC : ncolchunks * global_ncols ≤ INT_MAX) :
    (∀ r c : Int, 0 ≤ r → r < global_nrows → 0 ≤ c → c < global_ncols →
      ∃! rank : Int, 0 ≤ rank ∧ rank < nrowchunks * ncolchunks ∧
        (innerExtents rank global_nrows global_ncols nrowchunks ncolchunks).contains r c) ∧
    (∀ rank r c : Int, 0 ≤ rank → rank < nrowchunks * ncolchunks →
      (innerExtents rank global_nrows global_ncols nrowchunks ncolchunks).contains r c →
      0 ≤ r ∧ r < global_nrows ∧ 0 ≤ c ∧ c < global_ncols) := by
  constructor
  · intro r c r0 r1 c0 c1
    obtain ⟨k0, k1⟩ := block_index_range hR hN r0 r1
    obtain ⟨l0, l1⟩ := block_index_range hC hM c0 c1
    set k := (nrowchunks * (r + 1) - 1) / global_nrows with hk
    set l := (ncolchunks * (c + 1) - 1) / global_ncols with hl
    have hrank0 : 0 ≤ k * ncolchunks + l := by positivity
    have hrank1 : k * ncolchunks + l < nrowchunks * ncolchunks := by nlinarith
    refine ⟨k * ncolchunks + l, ⟨hrank0, hrank1, ?_⟩, ?_⟩
    · rw [innerExtents_eq hR hC hN hM hNR hMC hrank0 hrank1]
      simp only [Extents.contains, rank_div k l0 l1, rank_mod k l0 l1]
      have a := (block_iff (k := k) (r := r) hR hN).2 hk
      have b := (block_iff (k := l) (r := c) hC hM).2 hl
      exact ⟨a.1, a.2, b.1, b.2⟩
    · rintro rank ⟨q0, q1, hin⟩
      rw [innerExtents_eq hR hC hN hM hNR hMC q0 q1] at hin
      obtain ⟨_, _, _, _, _, _, hsplit⟩ := chunk_coords hM q0 q1
      simp only [Extents.contains] at hin
      have a := (block_iff (k := rank / ncolchunks) (r := r) hR hN).1 ⟨hin.1, hin.2.1⟩
      have b := (block_iff (k := rank % ncolchunks) (r := c) hC hM).1 ⟨hin.2.2.1, hin.2.2.2⟩
      rw [hsplit, a, b]
  · intro rank r c q0 q1 hin
    rw [innerExtents_eq hR hC hN hM hNR hMC q0 q1] at hin
    obtain ⟨_, _, k0, k1, l0, l1, _⟩ := chunk_coords hM q0 q1
    simp only [Extents.contains] at hin
    obtain ⟨a, b, c', d⟩ := hin
    have e1 : 0 ≤ rank / ncolchunks * global_nrows / nrowchunks :=
      Int.ediv_nonneg (by positivity) (le_of_lt hN)
    have e2 : (rank / ncolchunks + 1) * global_nrows / nrowchunks ≤ global_nrows := by
      have : (rank / ncolchunks + 1) * global_nrows / nrowchunks < global_nrows + 1 := by
        rw [Int.ediv_lt_iff_lt_mul hN]; nlinarith
      omega
    have e3 : 0 ≤ rank % ncolchunks * global_ncols / ncolchunks :=
      Int.ediv_nonneg (by positivity) (le_of_lt hM)
    have e4 : (rank % ncolchunks + 1) * global_ncols / ncolchunks ≤ global_ncols := by
      have : (rank % ncolchunks + 1) * global_ncols / ncolchunks < global_ncols + 1 := by
        rw [Int.ediv_lt_iff_lt_mul hM]; nlinarith
      omega
    omega


/-- Witness of the amended C1 on the 4 x 4 grid cut into 2 x 1 chunks. -/
theorem partition_coverage_witness :
    ((0 : Int) < 4 ∧ (0 : Int) < 2 ∧ (0 : Int) < 1 ∧ (2 : Int) * 4 ≤ INT_MAX ∧
      (1 : Int) * 4 ≤ INT_MAX) ∧
    ((∀ r c : Int, 0 ≤ r → r < 4 → 0 ≤ c → c < 4 →
      ∃! rank : Int, 0 ≤ rank ∧ rank < 2 * 1 ∧ (innerExtents rank 4 4 2 1).contains r c) ∧
    (∀ rank r c : Int, 0 ≤ rank → rank < 2 * 1 →
      (innerExtents rank 4 4 2 1).contains r c → 0 ≤ r ∧ r < 4 ∧ 0 ≤ c ∧ c < 4)) :=
  ⟨by decide, partition_coverage 4 4 2 1 (by decide) (by decide) (by decide) (by decide)
      (by decide) (by decide)⟩

/-! ## Halo overlap -/

/-- The widened extents are the inner extents with one more index on each side that has
a neighbour. -/
theorem GetChunkExtents_inner (rank R C N M : Int) :
    GetChunkExtents rank R C N M =
      { startrow := (innerExtents rank R C N M).startrow -
          (if 0 < mychunkrow rank M then 1 else 0)
        endrow := (innerExtents rank R C N M).endrow +
          (if mychunkrow rank M < N - 1 then 1 else 0)
        startcol := (innerExtents rank R C N M).startcol -
          (if 0 < mychunkcol rank M then 1 else 0)
        endcol := (innerExtents rank R C N M).endcol +
          (if mychunkcol rank M < M - 1 then 1 else 0) } := by
  simp only [GetChunkExtents, gt_iff_lt]
  split_ifs <;> simp

/-- The widened extents of a rank of the chunk grid, in terms of floor division, when the
products fit an `int`. -/
theorem GetChunkExtents_eq {rank R C N M : Int} (hR : 0 < R) (hC : 0 < C) (hN : 0 < N)
    (hM : 0 < M) (hNR : N * R ≤ INT_MAX) (hMC : M * C ≤ INT_MAX)
    (h0 : 0 ≤ rank) (h1 : rank < N * M) :
    GetChunkExtents rank R C N M =
      { startrow := rank / M * R / N - (if 0 < rank / M then 1 else 0)
        endrow := (rank / M + 1) * R / N - 1 + (if rank / M < N - 1 then 1 else 0)
        startcol := rank % M * C / M - (if 0 < rank % M then 1 else 0)
        endcol := (rank % M + 1) * C / M - 1 + (if rank % M < M - 1 then 1 else 0) } := by
  obtain ⟨hk, hl, _, _, _, _, _⟩ := chunk_coords hM h0 h1
  simp only [GetChunkExtents, innerExtents_eq hR hC hN hM hNR hMC h0 h1, hk, hl, gt_iff_lt]
  split_ifs <;> simp

/-- Block starts grow with the block index. -/
theorem block_start_mono {R N : Int} (hR : 0 < R) (hN : 0 < N) {j k : Int} (h : j ≤ k) :
    j * R / N ≤ k * R / N :=
  Int.ediv_le_ediv hN (by nlinarith)

/-- The last block ends at the last row. -/
theorem block_start_last {R N : Int} (hN : 0 < N) : N * R / N = R :=
  Int.mul_ediv_cancel_left R (ne_of_gt hN)

/-- Every block but the one after the last starts inside the grid. -/
theorem block_start_lt {R N k : Int} (hR : 0 < R) (hN : 0 < N) (hk : k < N) :
    k * R / N < R := by
  rw [Int.ediv_lt_iff_lt_mul hN]; nlinarith

/-- The first block is empty exactly when there are more blocks than rows. -/
theorem first_block_empty {R N : Int} (hR : 0 < R) (hN : 0 < N) :
    (0 + 1) * R / N = 0 ↔ R < N := by
  simp only [zero_add, one_mul]
  constructor
  · intro h
    by_contra hc
    have : 1 ≤ R / N := by rw [Int.le_ediv_iff_mul_le hN]; omega
    omega
  · intro h
    exact Int.ediv_eq_zero_of_lt (le_of_lt hR) h

/-- Two integer ranges meet in a range. -/
theorem icc_inter_icc (a b c d : Int) :
    Finset.Icc a b ∩ Finset.Icc c d = Finset.Icc (max a c) (min b d) := by
  ext x
  simp only [Finset.mem_inter, Finset.mem_Icc]
  omega

/-- Overlap of the widened ranges of two consecutive blocks `k` and `k + 1` along one
axis. -/
theorem overlap_1d {R N k : Int} (hR : 0 < R) (hN : 0 < N) (hk0 : 0 ≤ k) (hk1 : k + 1 < N) :
    (Finset.Icc (k * R / N - (if 0 < k then 1 else 0))
        ((k + 1) * R / N - 1 + (if k < N - 1 then 1 else 0)) ∩
      Finset.Icc ((k + 1) * R / N - (if 0 < k + 1 then 1 else 0))
        ((k + 1 + 1) * R / N - 1 + (if k + 1 < N - 1 then 1 else 0))).card =
      if k = 0 ∧ R < N then 1 else 2 := by
  have m1 := block_start_mono hR hN (show k ≤ k + 1 by omega)
  have m2 := block_start_mono hR hN (show k + 1 ≤ k + 1 + 1 by omega)
  have l1 := block_start_lt hR hN hk1
  have n0 : 0 ≤ k * R / N := Int.ediv_nonneg (by positivity) (le_of_lt hN)
  have hlast : k + 1 + 1 = N → (k + 1 + 1) * R / N = R := by
    intro h; rw [h]; exact block_start_last hN
  have hfirst : k = 0 → ((k + 1) * R / N = 0 ↔ R < N) := by
    intro h; rw [h]; exact first_block_empty hR hN
  have hz : k = 0 → k * R / N = 0 := by intro h; simp [h]
  rw [icc_inter_icc, Int.card_Icc]
  generalize k * R / N = s0 at *
  generalize (k + 1) * R / N = s1 at *
  generalize (k + 1 + 1) * R / N = s2 at *
  by_cases hk : k = 0
  · have := hfirst hk
    split_ifs <;> omega
  · split_ifs <;> omega

/-- C2 as stated fails: in the 4 x 4 grid cut into 2 x 1 chunks, ranks 0 and 1 are
neighbours in the chunk grid (same chunk column, chunk rows 0 and 1), their widened
row ranges are `0..2` and `1..3`, and these share two rows, not one. -/
theorem halo_overlap_not_one :
    mychunkcol 0 1 = mychunkcol 1 1 ∧ mychunkrow 1 1 = mychunkrow 0 1 + 1 ∧
    GetChunkExtents 0 4 4 2 1 = ⟨0, 2, 0, 3⟩ ∧ GetChunkExtents 1 4 4 2 1 = ⟨1, 3, 0, 3⟩ ∧
    ((GetChunkExtents 0 4 4 2 1).rowRange ∩ (GetChunkExtents 1 4 4 2 1).rowRange).card ≠ 1 := by
  decide

/-- C2, amended. For positive grid dimensions and chunk counts whose products
`nrowchunks * global_nrows` and `ncolchunks * global_ncols` fit an `int`, and two ranks
`p`, `q` of the chunk grid: when `q` is the neighbour of `p` in the next chunk row, their widened row
ranges share exactly two rows, unless `p` is in chunk row 0 and this chunk row has no
inner row (`global_nrows < nrowchunks`), in which case they share one; and the same for
the neighbour in the next chunk column, with columns. -/
theorem halo_overlap (global_nrows global_ncols nrowchunks ncolchunks p q : Int)
    (hR : 0 < global_nrows) (hC : 0 < global_ncols)
    (hN : 0 < nrowchunks) (hM : 0 < ncolchunks)
    (hNR : nrowchunks * global_nrows ≤ INT_MAX) (hMC : ncolchunks * global_ncols ≤ INT_MAX)
    (hp0 : 0 ≤ p) (hp1 : p < nrowchunks * ncolchunks)
    (hq0 : 0 ≤ q) (hq1 : q < nrowchunks * ncolchunks) :
    (mychunkcol q ncolchunks = mychunkcol p ncolchunks →
      mychunkrow q ncolchunks = mychunkrow p ncolchunks + 1 →
      ((GetChunkExtents p global_nrows global_ncols nrowchunks ncolchunks).rowRange ∩
        (GetChunkExtents q global_nrows global_ncols nrowchunks ncolchunks).rowRange).card =
        if mychunkrow p ncolchunks = 0 ∧ global_nrows < nrowchunks then 1 else 2) ∧
    (mychunkrow q ncolchunks = mychunkrow p ncolchunks →
      mychunkcol q ncolchunks = mychunkcol p ncolchunks + 1 →
      ((GetChunkExtents p global_nrows global_ncols nrowchunks ncolchunks).colRange ∩
        (GetChunkExtents q global_nrows global_ncols nrowchunks ncolchunks).colRange).card =
        if mychunkcol p ncolchunks = 0 ∧ global_ncols < ncolchunks then 1 else 2) := by
  obtain ⟨pk, pl, pk0, _, pl0, _, _⟩ := chunk_coords hM hp0 hp1
  obtain ⟨qk, ql, _, qk1, _, ql1, _⟩ := chunk_coords hM hq0 hq1
  rw [GetChunkExtents_eq hR hC hN hM hNR hMC hp0 hp1, GetChunkExtents_eq hR hC hN hM hNR hMC hq0 hq1]
  simp only [Extents.rowRange, Extents.colRange, pk, pl, qk, ql]
  constructor
  · intro _ h
    rw [h]
    rw [h] at qk1
    exact overlap_1d hR hN pk0 qk1
  · intro _ h
    rw [h]
    rw [h] at ql1
    exact overlap_1d hC hM pl0 ql1

/-- Witness of the amended C2: ranks 0 and 1 of the 4 x 4 grid cut into 2 x 1 chunks
share two rows, and ranks 0 and 1 of the 4 x 4 grid cut into 1 x 2 chunks share two
columns. -/
theorem halo_overlap_witness :
    (mychunkcol 1 1 = mychunkcol 0 1 ∧ mychunkrow 1 1 = mychunkrow 0 1 + 1 ∧
      ((GetChunkExtents 0 4 4 2 1).rowRange ∩ (GetChunkExtents 1 4 4 2 1).rowRange).card =
        if mychunkrow 0 1 = 0 ∧ (4 : Int) < 2 then 1 else 2) ∧
    (mychunkrow 1 2 = mychunkrow 0 2 ∧ mychunkcol 1 2 = mychunkcol 0 2 + 1 ∧
      ((GetChunkExtents 0 4 4 1 2).colRange ∩ (GetChunkExtents 1 4 4 1 2).colRange).card =
        if mychunkcol 0 2 = 0 ∧ (4 : Int) < 2 then 1 else 2) :=
  ⟨⟨by decide, by decide,
      (halo_overlap 4 4 2 1 0 1 (by decide) (by decide) (by decide) (by decide)
      (by decide) (by decide)
        (by decide) (by decide) (by decide) (by decide)).1 (by decide) (by decide)⟩,
    ⟨by decide, by decide,
      (halo_overlap 4 4 1 2 0 1 (by decide) (by decide) (by decide) (by decide)
      (by decide) (by decide)
        (by decide) (by decide) (by decide) (by decide)).2 (by decide) (by decide)⟩⟩

/-! ## Size check and exit status -/

/-- C3 (the code departs from the claim). The writer returns the size error exactly when
the widened extents span fewer than 4 rows or fewer than 4 columns: rank 0 of the 4 x 4
grid cut into 2 row chunks and 1 column chunk has the extents rows `0..2`, columns
`0..3` (3 rows, 4 columns), and `PrintSubgridToFile` rejects it with the size error,
return value -1, writing nothing. -/
theorem size_check_rejects_three_rows :
    GetChunkExtents 0 4 4 2 1 = ⟨0, 2, 0, 3⟩ ∧
    PrintSubgridToFile 0 4 4 1 2 0 10 grid16 (fun _ => true) = (WriteStatus.sizeError, []) ∧
    WriteStatus.sizeError.code = -1 := by
  decide

/-- C4 (the code departs from the claim). With the scenario A file, `-ichunk 1` and
`-jchunk 1`, the only rank is opened and written in full and yet `main` exits with
`EXIT_FAILURE`; and when the destination of rank 0 cannot be opened, so that no rank is
processed, `main` exits with `EXIT_SUCCESS`. -/
theorem exit_status_inverted :
    (LoadGridFile (goodWorld file4x4).sc (goodWorld file4x4).fopenR (goodWorld file4x4).malloc
        "in" = .ok ⟨4, 4, 10, 0, grid16⟩ ∧
      rankFails (goodWorld file4x4) "out" 1 1 ⟨4, 4, 10, 0, grid16⟩ 0 = false ∧
      (main (goodWorld file4x4) (some ⟨"in", "out", 1, 1⟩)).1 = EXIT_FAILURE ∧
      ((main (goodWorld file4x4) (some ⟨"in", "out", 1, 1⟩)).2.map (fun f => f.rank)) = [0]) ∧
    (rankFails (closedWorld file4x4) "out" 1 1 ⟨4, 4, 10, 0, grid16⟩ 0 = true ∧
      main (closedWorld file4x4) (some ⟨"in", "out", 1, 1⟩) = (EXIT_SUCCESS, [])) := by
  decide

/-! ## Sub-grid content -/

/-- The bound on the products in the amended C9 is needed: in the grid of 90000 rows and
4 columns cut into 30000 row chunks, the extents of rank 29999 are rows
`-53169 .. -53166`; they pass the size check, every value written is a read outside the
array, whatever the array is, and the chunk file cannot be read back. -/
theorem chunk_reload_overflow :
    GetChunkExtents 29999 90000 4 30000 1 = ⟨-53169, -53166, 0, 3⟩ ∧
    ∀ g : List Dbl,
      PrintSubgridToFile 29999 4 90000 1 30000 0 10 g (fun _ => true) =
        (WriteStatus.ok, chunkHeader ⟨-53169, -53166, 0, 3⟩ 0 10 ++
          [Tok.cell none, Tok.cell none, Tok.cell none, Tok.cell none, Tok.nl,
            Tok.cell none, Tok.cell none, Tok.cell none, Tok.cell none, Tok.nl,
            Tok.cell none, Tok.cell none, Tok.cell none, Tok.cell none, Tok.nl,
            Tok.cell none, Tok.cell none, Tok.cell none, Tok.cell none, Tok.nl]) ∧
      LoadGridFile (tokScanner id)
          (fun _ => some (PrintSubgridToFile 29999 4 90000 1 30000 0 10 g (fun _ => true)).2)
          (fun _ => true) "chunk" = .error (LoadError.dataFormat 0 0) := by
  refine ⟨by decide, ?_⟩
  intro g
  have h : PrintSubgridToFile 29999 4 90000 1 30000 0 10 g (fun _ => true) =
        (WriteStatus.ok, chunkHeader ⟨-53169, -53166, 0, 3⟩ 0 10 ++
          [Tok.cell none, Tok.cell none, Tok.cell none, Tok.cell none, Tok.nl,
            Tok.cell none, Tok.cell none, Tok.cell none, Tok.cell none, Tok.nl,
            Tok.cell none, Tok.cell none, Tok.cell none, Tok.cell none, Tok.nl,
            Tok.cell none, Tok.cell none, Tok.cell none, Tok.cell none, Tok.nl]) := by
    rfl
  refine ⟨h, ?_⟩
  rw [h]
  decide

/-- Every value written by the inner loop of the writer for row `r` is the grid element
read at a flat index `r * global_ncols + c'` with `c ≤ c' < c + n`. -/
theorem printCols_cells (global_ncols : Int) (g : List Dbl) (fp : Nat → Bool) (r : Int)
    (n : Nat) (c : Int) (k : Nat) (t : Tok)
    (ht : t ∈ (printCols global_ncols g fp r n c k).2.2) :
    ∃ c1 : Int, c ≤ c1 ∧ c1 < c + n ∧ t = Tok.cell (gridAt g (r * global_ncols + c1)) := by
  induction n generalizing c k with
  | zero => simp [printCols] at ht
  | succ n ih =>
    simp only [printCols] at ht
    split_ifs at ht
    · simp only [List.mem_cons] at ht
      rcases ht with h | h
      · exact ⟨c, le_refl c, by push_cast; omega, by rw [h, Idx1D]⟩
      · obtain ⟨c1, a, b, e⟩ := ih (c + 1) (k + 1) h
        exact ⟨c1, by omega, by push_cast; omega, e⟩
    · simp at ht

/-- Every token written by the outer loop of the writer is a newline or the grid element
read at a flat index `r1 * global_ncols + c1` within the rows and columns looped over. -/
theorem printRows_cells (global_ncols : Int) (g : List Dbl) (fp : Nat → Bool)
    (startcol endcol : Int) (n : Nat) (r : Int) (k : Nat) (t : Tok)
    (ht : t ∈ (printRows global_ncols g fp startcol endcol n r k).2) :
    t = Tok.nl ∨ ∃ r1 c1 : Int, r ≤ r1 ∧ r1 < r + n ∧ startcol ≤ c1 ∧ c1 ≤ endcol ∧
      t = Tok.cell (gridAt g (r1 * global_ncols + c1)) := by
  induction n generalizing r k with
  | zero => simp [printRows] at ht
  | succ n ih =>
    simp only [printRows] at ht
    have hrow : ∀ t1 ∈ (printCols global_ncols g fp r (endcol - startcol + 1).toNat
        startcol k).2.2, ∃ r1 c1 : Int, r ≤ r1 ∧ r1 < r + (n + 1 : Nat) ∧ startcol ≤ c1 ∧
        c1 ≤ endcol ∧ t1 = Tok.cell (gridAt g (r1 * global_ncols + c1)) := by
      intro t1 h1
      obtain ⟨c1, a, b, e⟩ := printCols_cells global_ncols g fp r _ startcol k t1 h1
      exact ⟨r, c1, le_refl r, by push_cast; omega, a, by omega, e⟩
    split_ifs at ht
    · simp only [List.append_assoc, List.mem_append] at ht
      rcases ht with h | h | h
      · exact Or.inr (hrow t h)
      · exact Or.inl (by simpa using h)
      · rcases ih (r + 1) _ h with h2 | ⟨r1, c1, a, b, c, d, e⟩
        · exact Or.inl h2
        · exact Or.inr ⟨r1, c1, by omega, by push_cast; omega, c, d, e⟩
    · simp only [List.append_assoc, List.mem_append] at ht
      rcases ht with h | h | h
      · exact Or.inr (hrow t h)
      · simp at h
      · rcases ih (r + 1) _ h with h2 | ⟨r1, c1, a, b, c, d, e⟩
        · exact Or.inl h2
        · exact Or.inr ⟨r1, c1, by omega, by push_cast; omega, c, d, e⟩
    · exact Or.inr (hrow t ht)

/-- Every value written by the writer is the grid element read at a flat index
`r * global_ncols + c` for a cell `(r, c)` of the extents. -/
theorem writeChunk_cells (e : Extents) (global_ncols : Int) (eps : Dbl) (niter : Int)
    (g : List Dbl) (fp : Nat → Bool) (x : Option Dbl)
    (hx : Tok.cell x ∈ (writeChunk e global_ncols eps niter g fp).2) :
    ∃ r c : Int, e.contains r c ∧ x = gridAt g (r * global_ncols + c) := by
  unfold writeChunk at hx
  split_ifs at hx with h1 h2
  · simp at hx
  · simp only [chunkHeader, List.cons_append, List.nil_append, List.mem_cons, Tok.cell.injEq,
      reduceCtorEq, false_or] at hx
    rcases printRows_cells global_ncols g fp e.startcol e.endcol _ e.startrow 1 _ hx with
      h | ⟨r1, c1, a, b, c, d, h⟩
    · cases h
    · refine ⟨r1, c1, ⟨a, by omega, c, d⟩, ?_⟩
      simpa using h
  · simp at hx

/-- Every destination of the rank loop is named after its rank and holds what the
writer wrote for this rank. -/
theorem breakLoop_files {S : Type} (w : World S) (filebase : String) (IChunk JChunk : Int)
    (global_ncols global_nrows niter : Int) (eps : Dbl) (gg : List Dbl) (n : Nat) (rank : Int)
    (f : ChunkFile)
    (hf : f ∈ (breakLoop w filebase IChunk JChunk global_ncols global_nrows niter eps gg
      n rank).2) :
    f.path = breakFilePath filebase f.rank ∧
      f.content = (PrintSubgridToFile f.rank global_ncols global_nrows IChunk JChunk eps niter
        gg (w.fwrite f.path)).2 := by
  induction n generalizing rank with
  | zero => simp [breakLoop] at hf
  | succ n ih =>
    simp only [breakLoop, OpenBreakFile] at hf
    by_cases h1 : w.fopenW (breakFilePath filebase rank) = true
    · simp only [h1, if_true] at hf
      by_cases h2 : (PrintSubgridToFile rank global_ncols global_nrows IChunk JChunk eps niter gg
          (w.fwrite (breakFilePath filebase rank))).1.code ≠ 0
      · rw [if_pos h2] at hf
        simp only [List.mem_singleton] at hf
        rw [hf]
        exact ⟨rfl, rfl⟩
      · rw [if_neg h2] at hf
        simp only [List.mem_cons] at hf
        rcases hf with h | h
        · rw [h]
          exact ⟨rfl, rfl⟩
        · exact ih (rank + 1) h
    · simp [h1] at hf

/-- C10 as stated fails: for the input file with the header `4 6 0 10` (first field 4,
second field 6) and `-ichunk 1 -jchunk 1`, the destination of rank 0 does not hold what
a plan with `global_nrows = 4` (the first field), `global_ncols = 6` (the second field)
and the flat index `r * 6 + c` writes. -/
theorem axis_mapping_not_rows_first :
    LoadGridFile (goodWorld file4x6).sc (goodWorld file4x6).fopenR (goodWorld file4x6).malloc
      "in" = .ok ⟨4, 6, 10, 0, grid24⟩ ∧
    ¬ (∀ f ∈ (main (goodWorld file4x6) (some ⟨"in", "out", 1, 1⟩)).2,
      f.content = (writeChunk (GetChunkExtents f.rank 4 6 1 1) 6 0 10 grid24
        ((goodWorld file4x6).fwrite f.path)).2) := by
  decide

/-- C10, amended. For an input file that loads with the header fields `first`, `second`
(`grid.rows`, `grid.cols` of the loader) and a run with `-ichunk I` and `-jchunk J`,
every destination of the run is named after its rank and holds what the writer wrote for
the extents `GetChunkExtents rank second first J I`: `global_nrows` is the second header
field, `global_ncols` the first, the row-wise chunk count `J` divides the rows and the
column-wise chunk count `I` the columns; and every value written is the grid element at
the flat index `r * first + c` for a cell `(r, c)` of these extents. -/
theorem axis_mapping {S : Type} (w : World S) (opts : opt_struct) (grid : Grid)
    (hload : LoadGridFile w.sc w.fopenR w.malloc opts.inpfile = .ok grid) :
    ∀ f ∈ (main w (some opts)).2,
      f.path = breakFilePath opts.resfile f.rank ∧
      f.content = (writeChunk
        (GetChunkExtents f.rank grid.cols grid.rows opts.jbreak opts.ibreak)
        grid.rows grid.eps grid.niter grid.g (w.fwrite f.path)).2 ∧
      ∀ x : Option Dbl, Tok.cell x ∈ f.content →
        ∃ r c : Int,
          (GetChunkExtents f.rank grid.cols grid.rows opts.jbreak opts.ibreak).contains r c ∧
          x = gridAt grid.g (r * grid.rows + c) := by
  intro f hf
  simp only [main, BreakGridFile, hload] at hf
  obtain ⟨hp, hc⟩ := breakLoop_files w opts.resfile opts.ibreak opts.jbreak grid.rows grid.cols
    grid.niter grid.eps grid.g _ 0 f hf
  refine ⟨hp, hc, ?_⟩
  intro x hx
  rw [hc] at hx
  exact writeChunk_cells _ grid.rows grid.eps grid.niter grid.g _ x hx

/-- Witness of the amended C10: the file with the header `4 6 0 10`, cut with
`-ichunk 1 -jchunk 2` into two chunks of 4 rows and 4 columns. -/
theorem axis_mapping_witness :
    LoadGridFile (goodWorld file4x6).sc (goodWorld file4x6).fopenR (goodWorld file4x6).malloc
      "in" = .ok ⟨4, 6, 10, 0, grid24⟩ ∧
    (main (goodWorld file4x6) (some ⟨"in", "out", 1, 2⟩)).2.map (fun f => f.rank) = [0, 1] ∧
    GetChunkExtents 0 6 4 2 1 = ⟨0, 3, 0, 3⟩ ∧ GetChunkExtents 1 6 4 2 1 = ⟨2, 5, 0, 3⟩ ∧
    ∀ f ∈ (main (goodWorld file4x6) (some ⟨"in", "out", 1, 2⟩)).2,
      f.path = breakFilePath "out" f.rank ∧
      f.content = (writeChunk (GetChunkExtents f.rank 6 4 2 1) 4 0 10 grid24
        ((goodWorld file4x6).fwrite f.path)).2 ∧
      ∀ x : Option Dbl, Tok.cell x ∈ f.content →
        ∃ r c : Int, (GetChunkExtents f.rank 6 4 2 1).contains r c ∧
          x = gridAt grid24 (r * 4 + c) :=
  ⟨by decide, by decide, by decide, by decide,
    axis_mapping (goodWorld file4x6) ⟨"in", "out", 1, 2⟩ ⟨4, 6, 10, 0, grid24⟩ (by decide)⟩

/-! ## Configuration errors and load failures -/

/-- C12. When `LoadGridFile` fails, `BreakGridFile` returns -1 without opening or writing
any destination, and `main` exits with `EXIT_FAILURE`, which is non-zero; and a header
error is found before the grid is allocated: when `ReadGridHdr` fails, `LoadGridFile`
returns its error whatever the allocation would do, also when it would fail. -/
theorem load_failure_propagates {S : Type} (w : World S) (opts : opt_struct) (err : LoadError)
    (hfail : LoadGridFile w.sc w.fopenR w.malloc opts.inpfile = .error err) :
    BreakGridFile w opts.inpfile opts.resfile opts.ibreak opts.jbreak = (-1, []) ∧
    main w (some opts) = (EXIT_FAILURE, []) ∧ EXIT_FAILURE ≠ 0 ∧
    (∀ (fp : S) (e : LoadError), w.fopenR opts.inpfile = some fp →
      ReadGridHdr w.sc fp = .error e →
      ∀ malloc : Int → Bool, LoadGridFile w.sc w.fopenR malloc opts.inpfile = .error e) := by
  have hb : BreakGridFile w opts.inpfile opts.resfile opts.ibreak opts.jbreak = (-1, []) := by
    simp only [BreakGridFile, hfail]
  refine ⟨hb, ?_, by decide, ?_⟩
  · simp only [main, hb]
    rfl
  · intro fp e hopen hhdr malloc
    simp only [LoadGridFile, hopen, hhdr]

/-- Witness of C12: scenario C, a header without the iteration count, in a world where
every allocation would fail: the load fails with the format error, not with the
allocation error, no destination is opened and `main` exits with `EXIT_FAILURE`. -/
theorem load_failure_propagates_witness :
    (LoadGridFile (noMemWorld fileNoIter).sc (noMemWorld fileNoIter).fopenR
        (noMemWorld fileNoIter).malloc "in" = .error LoadError.headerFormat ∧
      ReadGridHdr (noMemWorld fileNoIter).sc fileNoIter = .error LoadError.headerFormat) ∧
    (BreakGridFile (noMemWorld fileNoIter) "in" "out" 1 1 = (-1, []) ∧
    main (noMemWorld fileNoIter) (some ⟨"in", "out", 1, 1⟩) = (EXIT_FAILURE, []) ∧
    EXIT_FAILURE ≠ 0 ∧
    (∀ (fp : List Tok) (e : LoadError), (noMemWorld fileNoIter).fopenR "in" = some fp →
      ReadGridHdr (noMemWorld fileNoIter).sc fp = .error e →
      ∀ malloc : Int → Bool,
        LoadGridFile (noMemWorld fileNoIter).sc (noMemWorld fileNoIter).fopenR malloc "in" =
          .error e)) :=
  ⟨by decide, load_failure_propagates (noMemWorld fileNoIter) ⟨"in", "out", 1, 1⟩
    LoadError.headerFormat (by decide)⟩

/-! ## Perimeter, rank decomposition, balance and halo lines -/

/-- C13 as stated fails: in the grid of 90000 rows and 4 columns cut into 30000 row
chunks and 1 column chunk, rank 29999 is in the last chunk row, and its `endrow` is
`-53166`, not `global_nrows - 1 = 89999`, because `30000 * 90000` leaves the range of
`int`. -/
theorem no_outward_halo_overflow :
    ((0 : Int) < 90000 ∧ (0 : Int) < 4 ∧ (0 : Int) < 30000 ∧ (0 : Int) < 1 ∧
      (0 : Int) ≤ 29999 ∧ (29999 : Int) < 30000 * 1) ∧
    mychunkrow 29999 1 = 30000 - 1 ∧
    GetChunkExtents 29999 90000 4 30000 1 = ⟨-53169, -53166, 0, 3⟩ ∧
    (GetChunkExtents 29999 90000 4 30000 1).endrow ≠ 90000 - 1 := by
  decide

/-- C13, amended. For positive grid dimensions and chunk counts whose products
`nrowchunks * global_nrows` and `ncolchunks * global_ncols` fit an `int`, and every rank
of the chunk grid, `GetChunkExtents` adds no ghost line on a side that is on the perimeter: `startrow = 0`
in chunk row 0, `endrow = global_nrows-1` in the last chunk row, `startcol = 0` in chunk
column 0, `endcol = global_ncols-1` in the last chunk column; with one column chunk every
chunk spans the columns `0 .. global_ncols-1`; and in the 4 x 4 grid cut into 2 row
chunks and 1 column chunk rank 0 has rows `0..2`, rank 1 rows `1..3`, both columns
`0..3`. -/
theorem no_outward_halo (global_nrows global_ncols nrowchunks ncolchunks rank : Int)
    (hR : 0 < global_nrows) (hC : 0 < global_ncols)
    (hN : 0 < nrowchunks) (hM : 0 < ncolchunks)
    (hNR : nrowchunks * global_nrows ≤ INT_MAX) (hMC : ncolchunks * global_ncols ≤ INT_MAX)
    (h0 : 0 ≤ rank) (h1 : rank < nrowchunks * ncolchunks) :
    (mychunkrow rank ncolchunks = 0 →
      (GetChunkExtents rank global_nrows global_ncols nrowchunks ncolchunks).startrow = 0) ∧
    (mychunkrow rank ncolchunks = nrowchunks - 1 →
      (GetChunkExtents rank global_nrows global_ncols nrowchunks ncolchunks).endrow =
        global_nrows - 1) ∧
    (mychunkcol rank ncolchunks = 0 →
      (GetChunkExtents rank global_nrows global_ncols nrowchunks ncolchunks).startcol = 0) ∧
    (mychunkcol rank ncolchunks = ncolchunks - 1 →
      (GetChunkExtents rank global_nrows global_ncols nrowchunks ncolchunks).endcol =
        global_ncols - 1) ∧
    (ncolchunks = 1 →
      (GetChunkExtents rank global_nrows global_ncols nrowchunks ncolchunks).startcol = 0 ∧
      (GetChunkExtents rank global_nrows global_ncols nrowchunks ncolchunks).endcol =
        global_ncols - 1) ∧
    GetChunkExtents 0 4 4 2 1 = ⟨0, 2, 0, 3⟩ ∧ GetChunkExtents 1 4 4 2 1 = ⟨1, 3, 0, 3⟩ := by
  obtain ⟨hk, hl, k0, k1, l0, l1, _⟩ := chunk_coords hM h0 h1
  rw [GetChunkExtents_eq hR hC hN hM hNR hMC h0 h1, hk, hl]
  have first : ∀ {k R N : Int}, k = 0 → k * R / N - (if 0 < k then 1 else 0) = 0 := by
    intro k R N h
    subst h
    simp
  have last : ∀ {k R N : Int}, 0 < N → k = N - 1 →
      (k + 1) * R / N - 1 + (if k < N - 1 then 1 else 0) = R - 1 := by
    intro k R N hN h
    subst h
    rw [sub_add_cancel, block_start_last hN]
    simp
  refine ⟨fun h => first h, fun h => last hN h, fun h => first h, fun h => last hM h, ?_,
    by decide, by decide⟩
  intro h
  have hl0 : rank % ncolchunks = 0 := by omega
  exact ⟨first hl0, last hM (by omega)⟩

/-- Witness of the amended C13: rank 1 of the 4 x 4 grid cut into 2 row chunks and 1 column chunk is
in the last chunk row, in chunk column 0, which is also the last chunk column. -/
theorem no_outward_halo_witness :
    (mychunkrow 1 1 = 2 - 1 ∧ mychunkcol 1 1 = 0 ∧ mychunkcol 1 1 = 1 - 1) ∧
    ((GetChunkExtents 1 4 4 2 1).endrow = 4 - 1 ∧ (GetChunkExtents 1 4 4 2 1).startcol = 0 ∧
      (GetChunkExtents 1 4 4 2 1).endcol = 4 - 1 ∧
      (mychunkrow 0 1 = 0 ∧ (GetChunkExtents 0 4 4 2 1).startrow = 0)) :=
  ⟨by decide,
    have h := no_outward_halo 4 4 2 1 1 (by decide) (by decide) (by decide) (by decide)
      (by decide) (by decide)
      (by decide) (by decide)
    have g := no_outward_halo 4 4 2 1 0 (by decide) (by decide) (by decide) (by decide)
      (by decide) (by decide)
      (by decide) (by decide)
    ⟨h.2.1 (by decide), h.2.2.1 (by decide), h.2.2.2.1 (by decide),
      by decide, g.1 (by decide)⟩⟩

/-- C14. For a positive `ncolchunks` (`nrowchunks` is positive as soon as there is a rank
or a chunk row), `mychunkrow = rank / ncolchunks` and `mychunkcol = rank % ncolchunks`
map the ranks `0 .. nrowchunks*ncolchunks-1` one to one onto the pairs of a chunk row in
`0 .. nrowchunks-1` and a chunk column in `0 .. ncolchunks-1`, with
`rank = mychunkrow * ncolchunks + mychunkcol`. -/
theorem rank_bijection (nrowchunks ncolchunks : Int) (hM : 0 < ncolchunks) :
    (∀ rank : Int, 0 ≤ rank → rank < nrowchunks * ncolchunks →
      0 ≤ mychunkrow rank ncolchunks ∧ mychunkrow rank ncolchunks < nrowchunks ∧
      0 ≤ mychunkcol rank ncolchunks ∧ mychunkcol rank ncolchunks < ncolchunks ∧
      rank = mychunkrow rank ncolchunks * ncolchunks + mychunkcol rank ncolchunks) ∧
    (∀ p q : Int, 0 ≤ p → p < nrowchunks * ncolchunks → 0 ≤ q → q < nrowchunks * ncolchunks →
      mychunkrow p ncolchunks = mychunkrow q ncolchunks →
      mychunkcol p ncolchunks = mychunkcol q ncolchunks → p = q) ∧
    (∀ k l : Int, 0 ≤ k → k < nrowchunks → 0 ≤ l → l < ncolchunks →
      ∃ rank : Int, 0 ≤ rank ∧ rank < nrowchunks * ncolchunks ∧
        mychunkrow rank ncolchunks = k ∧ mychunkcol rank ncolchunks = l) := by
  refine ⟨?_, ?_, ?_⟩
  · intro rank h0 h1
    obtain ⟨hk, hl, k0, k1, l0, l1, hs⟩ := chunk_coords hM h0 h1
    rw [hk, hl]
    exact ⟨k0, k1, l0, l1, hs⟩
  · intro p q p0 p1 q0 q1 hr hc
    obtain ⟨pk, pl, _, _, _, _, ps⟩ := chunk_coords hM p0 p1
    obtain ⟨qk, ql, _, _, _, _, qs⟩ := chunk_coords hM q0 q1
    rw [pk, qk] at hr
    rw [pl, ql] at hc
    rw [ps, qs, hr, hc]
  · intro k l k0 k1 l0 l1
    have r0 : 0 ≤ k * ncolchunks + l := by positivity
    have r1 : k * ncolchunks + l < nrowchunks * ncolchunks := by nlinarith
    obtain ⟨hk, hl, _⟩ := chunk_coords hM r0 r1
    exact ⟨k * ncolchunks + l, r0, r1, by rw [hk, rank_div k l0 l1],
      by rw [hl, rank_mod k l0 l1]⟩

/-- Witness of C14: the chunk grid of 2 rows and 3 columns, where rank 4 is chunk row 1,
chunk column 1. -/
theorem rank_bijection_witness :
    ((0 : Int) < 2 ∧ (0 : Int) < 3 ∧ (4 : Int) < 2 * 3) ∧
    (0 ≤ mychunkrow 4 3 ∧ mychunkrow 4 3 < 2 ∧ 0 ≤ mychunkcol 4 3 ∧ mychunkcol 4 3 < 3 ∧
      (4 : Int) = mychunkrow 4 3 * 3 + mychunkcol 4 3) :=
  ⟨by decide, (rank_bijection 2 3 (by decide)).1 4 (by decide) (by decide)⟩

/-- The floor of a quotient of integers is their floor division. -/
theorem floor_div_eq {R N : Int} (hN : 0 < N) : ⌊(R : ℚ) / (N : ℚ)⌋ = R / N := by
  have hNq : (0 : ℚ) < (N : ℚ) := by exact_mod_cast hN
  rw [Int.floor_eq_iff, le_div_iff₀ hNq, div_lt_iff₀ hNq]
  constructor
  · exact_mod_cast Int.ediv_mul_le R (ne_of_gt hN)
  · exact_mod_cast Int.lt_ediv_add_one_mul_self R hN

/-- The ceiling of a quotient of integers: the floor division when it is exact, one
more when it is not. -/
theorem ceil_div_eq {R N : Int} (hN : 0 < N) :
    ⌈(R : ℚ) / (N : ℚ)⌉ = if N ∣ R then R / N else R / N + 1 := by
  have hNq : (0 : ℚ) < (N : ℚ) := by exact_mod_cast hN
  have h1 := Int.ediv_mul_le R (ne_of_gt hN)
  have h2 := Int.lt_ediv_add_one_mul_self R hN
  rw [Int.ceil_eq_iff, lt_div_iff₀ hNq, div_le_iff₀ hNq]
  split_ifs with hd
  · have h3 : R / N * N = R := Int.ediv_mul_cancel hd
    constructor
    · have : (R / N - 1) * N < R := by nlinarith
      exact_mod_cast this
    · exact_mod_cast h3.ge
  · have h3 : R / N * N ≠ R := by
      intro h
      exact hd ⟨R / N, by rw [mul_comm]; exact h.symm⟩
    constructor
    · have : (R / N + 1 - 1) * N < R := by
        rw [add_sub_cancel_right]
        omega
      exact_mod_cast this
    · have : R ≤ (R / N + 1) * N := le_of_lt h2
      exact_mod_cast this

/-- The size of block `k` of the floor partition: the floor of `R / N` or one more, and
the floor when the division is exact. -/
theorem block_size {R N : Int} (hN : 0 < N) (k : Int) :
    ((k + 1) * R / N - k * R / N = R / N ∨ (k + 1) * R / N - k * R / N = R / N + 1) ∧
      (N ∣ R → (k + 1) * R / N - k * R / N = R / N) := by
  have a1 := Int.ediv_mul_le (k * R) (ne_of_gt hN)
  have a2 := Int.lt_ediv_add_one_mul_self (k * R) hN
  have b1 := Int.ediv_mul_le ((k + 1) * R) (ne_of_gt hN)
  have b2 := Int.lt_ediv_add_one_mul_self ((k + 1) * R) hN
  have q1 := Int.ediv_mul_le R (ne_of_gt hN)
  have q2 := Int.lt_ediv_add_one_mul_self R hN
  have lo : k * R / N + R / N ≤ (k + 1) * R / N := by
    by_contra h
    have : (k + 1) * R / N + 1 ≤ k * R / N + R / N := by omega
    nlinarith
  have hi : (k + 1) * R / N ≤ k * R / N + R / N + 1 := by
    by_contra h
    have : k * R / N + R / N + 2 ≤ (k + 1) * R / N := by omega
    nlinarith
  refine ⟨by omega, ?_⟩
  intro hd
  obtain ⟨c, rfl⟩ := hd
  have e1 : k * (N * c) = N * (k * c) := by ring
  have e2 : (k + 1) * (N * c) = N * ((k + 1) * c) := by ring
  rw [e1, e2, Int.mul_ediv_cancel_left _ (ne_of_gt hN), Int.mul_ediv_cancel_left _ (ne_of_gt hN),
    Int.mul_ediv_cancel_left _ (ne_of_gt hN)]
  ring

/-- The size of a block is the floor or the ceiling of `R / N`. -/
theorem block_size_floor_ceil {R N : Int} (hN : 0 < N) (k : Int) :
    (((k + 1) * R / N - 1 - k * R / N + 1 = ⌊(R : ℚ) / (N : ℚ)⌋) ∨
      ((k + 1) * R / N - 1 - k * R / N + 1 = ⌈(R : ℚ) / (N : ℚ)⌉)) ∧
    R / N ≤ (k + 1) * R / N - 1 - k * R / N + 1 ∧
    (k + 1) * R / N - 1 - k * R / N + 1 ≤ R / N + 1 := by
  obtain ⟨h, hd⟩ := block_size (R := R) hN k
  rw [floor_div_eq hN, ceil_div_eq hN]
  refine ⟨?_, by omega, by omega⟩
  split_ifs with hdv
  · left
    have := hd hdv
    omega
  · omega
/-- C15 as stated fails: in the grid of 90000 rows and 4 columns cut into 30000 row
chunks and 1 column chunk, rank 23860 has the inner rows `71580 .. -71583`, because
`23861 * 90000` leaves the range of `int`; its inner row count is `-143162`, neither
the floor nor the ceiling of `90000 / 30000 = 3`. -/
theorem balanced_blocks_overflow :
    ((0 : Int) < 90000 ∧ (0 : Int) < 4 ∧ (0 : Int) < 30000 ∧ (0 : Int) < 1 ∧
      (0 : Int) ≤ 23860 ∧ (23860 : Int) < 30000 * 1) ∧
    innerExtents 23860 90000 4 30000 1 = ⟨71580, -71583, 0, 3⟩ ∧
    ¬ ((innerExtents 23860 90000 4 30000 1).endrow -
          (innerExtents 23860 90000 4 30000 1).startrow + 1 =
          ⌊((90000 : Int) : ℚ) / ((30000 : Int) : ℚ)⌋ ∨
        (innerExtents 23860 90000 4 30000 1).endrow -
          (innerExtents 23860 90000 4 30000 1).startrow + 1 =
          ⌈((90000 : Int) : ℚ) / ((30000 : Int) : ℚ)⌉) := by
  refine ⟨by decide, by decide, ?_⟩
  rw [floor_div_eq (by decide), ceil_div_eq (by decide)]
  decide

/-- C15, amended. For positive grid dimensions and chunk counts whose products
`nrowchunks * global_nrows` and `ncolchunks * global_ncols` fit an `int`, the number of
inner rows of every rank of the chunk grid, `(mychunkrow+1)*global_nrows/nrowchunks -
mychunkrow*global_nrows/nrowchunks`, is the floor or the ceiling of
`global_nrows / nrowchunks`, so that the inner row counts of two ranks differ by one at
most; and the same for the inner columns with `global_ncols` and `ncolchunks`. -/
theorem balanced_blocks (global_nrows global_ncols nrowchunks ncolchunks : Int)
    (hR : 0 < global_nrows) (hC : 0 < global_ncols)
    (hN : 0 < nrowchunks) (hM : 0 < ncolchunks)
    (hNR : nrowchunks * global_nrows ≤ INT_MAX) (hMC : ncolchunks * global_ncols ≤ INT_MAX) :
    (∀ rank : Int, 0 ≤ rank → rank < nrowchunks * ncolchunks →
      ((innerExtents rank global_nrows global_ncols nrowchunks ncolchunks).endrow -
          (innerExtents rank global_nrows global_ncols nrowchunks ncolchunks).startrow + 1 =
          ⌊(global_nrows : ℚ) / (nrowchunks : ℚ)⌋ ∨
        (innerExtents rank global_nrows global_ncols nrowchunks ncolchunks).endrow -
          (innerExtents rank global_nrows global_ncols nrowchunks ncolchunks).startrow + 1 =
          ⌈(global_nrows : ℚ) / (nrowchunks : ℚ)⌉) ∧
      ((innerExtents rank global_nrows global_ncols nrowchunks ncolchunks).endcol -
          (innerExtents rank global_nrows global_ncols nrowchunks ncolchunks).startcol + 1 =
          ⌊(global_ncols : ℚ) / (ncolchunks : ℚ)⌋ ∨
        (innerExtents rank global_nrows global_ncols nrowchunks ncolchunks).endcol -
          (innerExtents rank global_nrows global_ncols nrowchunks ncolchunks).startcol + 1 =
          ⌈(global_ncols : ℚ) / (ncolchunks : ℚ)⌉)) ∧
    (∀ p q : Int, 0 ≤ p → p < nrowchunks * ncolchunks → 0 ≤ q → q < nrowchunks * ncolchunks →
      |((innerExtents p global_nrows global_ncols nrowchunks ncolchunks).endrow -
          (innerExtents p global_nrows global_ncols nrowchunks ncolchunks).startrow + 1) -
        ((innerExtents q global_nrows global_ncols nrowchunks ncolchunks).endrow -
          (innerExtents q global_nrows global_ncols nrowchunks ncolchunks).startrow + 1)| ≤ 1 ∧
      |((innerExtents p global_nrows global_ncols nrowchunks ncolchunks).endcol -
          (innerExtents p global_nrows global_ncols nrowchunks ncolchunks).startcol + 1) -
        ((innerExtents q global_nrows global_ncols nrowchunks ncolchunks).endcol -
          (innerExtents q global_nrows global_ncols nrowchunks ncolchunks).startcol + 1)| ≤ 1) := by
  constructor
  · intro rank h0 h1
    rw [innerExtents_eq hR hC hN hM hNR hMC h0 h1]
    exact ⟨(block_size_floor_ceil hN _).1, (block_size_floor_ceil hM _).1⟩
  · intro p q p0 p1 q0 q1
    rw [innerExtents_eq hR hC hN hM hNR hMC p0 p1, innerExtents_eq hR hC hN hM hNR hMC q0 q1]
    obtain ⟨_, a1, a2⟩ := block_size_floor_ceil (R := global_nrows) hN (p / ncolchunks)
    obtain ⟨_, b1, b2⟩ := block_size_floor_ceil (R := global_nrows) hN (q / ncolchunks)
    obtain ⟨_, c1, c2⟩ := block_size_floor_ceil (R := global_ncols) hM (p % ncolchunks)
    obtain ⟨_, d1, d2⟩ := block_size_floor_ceil (R := global_ncols) hM (q % ncolchunks)
    simp only [abs_le]
    refine ⟨⟨by omega, by omega⟩, ⟨by omega, by omega⟩⟩

/-- Witness of the amended C15: 7 rows in 3 row chunks and 4 columns in 1 column chunk; the ranks 0,
1, 2 have 2, 2 and 3 inner rows. -/
theorem balanced_blocks_witness :
    (innerExtents 0 7 4 3 1 = ⟨0, 1, 0, 3⟩ ∧ innerExtents 1 7 4 3 1 = ⟨2, 3, 0, 3⟩ ∧
      innerExtents 2 7 4 3 1 = ⟨4, 6, 0, 3⟩) ∧
    ((innerExtents 2 7 4 3 1).endrow - (innerExtents 2 7 4 3 1).startrow + 1 =
        ⌊((7 : Int) : ℚ) / ((3 : Int) : ℚ)⌋ ∨
      (innerExtents 2 7 4 3 1).endrow - (innerExtents 2 7 4 3 1).startrow + 1 =
        ⌈((7 : Int) : ℚ) / ((3 : Int) : ℚ)⌉) ∧
    |((innerExtents 0 7 4 3 1).endrow - (innerExtents 0 7 4 3 1).startrow + 1) -
      ((innerExtents 2 7 4 3 1).endrow - (innerExtents 2 7 4 3 1).startrow + 1)| ≤ 1 :=
  ⟨by decide,
    ((balanced_blocks 7 4 3 1 (by decide) (by decide) (by decide) (by decide)
      (by decide) (by decide)).1 2
      (by decide) (by decide)).1,
    ((balanced_blocks 7 4 3 1 (by decide) (by decide) (by decide) (by decide)
      (by decide) (by decide)).2 0 2
      (by decide) (by decide) (by decide) (by decide)).1⟩

/-- C16. For positive grid dimensions and chunk counts and ranks `p`, `q` of the chunk
grid: when `q` is in the chunk row before that of `p`, the widened `startrow` of `p` is
the inner `endrow` of `q`; when `q` is in the chunk row after that of `p`, the widened
`endrow` of `p` is the inner `startrow` of `q`; the same holds for chunk columns; and the
widened extents of `p` are its inner extents with one more index on each side that has a
neighbour. -/
theorem halo_is_neighbour_boundary (global_nrows global_ncols nrowchunks ncolchunks p q : Int)
    (hR : 0 < global_nrows) (hC : 0 < global_ncols)
    (hN : 0 < nrowchunks) (hM : 0 < ncolchunks)
    (hp0 : 0 ≤ p) (hp1 : p < nrowchunks * ncolchunks)
    (hq0 : 0 ≤ q) (hq1 : q < nrowchunks * ncolchunks) :
    (mychunkrow q ncolchunks = mychunkrow p ncolchunks - 1 →
      (GetChunkExtents p global_nrows global_ncols nrowchunks ncolchunks).startrow =
        (innerExtents q global_nrows global_ncols nrowchunks ncolchunks).endrow) ∧
    (mychunkrow q ncolchunks = mychunkrow p ncolchunks + 1 →
      (GetChunkExtents p global_nrows global_ncols nrowchunks ncolchunks).endrow =
        (innerExtents q global_nrows global_ncols nrowchunks ncolchunks).startrow) ∧
    (mychunkcol q ncolchunks = mychunkcol p ncolchunks - 1 →
      (GetChunkExtents p global_nrows global_ncols nrowchunks ncolchunks).startcol =
        (innerExtents q global_nrows global_ncols nrowchunks ncolchunks).endcol) ∧
    (mychunkcol q ncolchunks = mychunkcol p ncolchunks + 1 →
      (GetChunkExtents p global_nrows global_ncols nrowchunks ncolchunks).endcol =
        (innerExtents q global_nrows global_ncols nrowchunks ncolchunks).startcol) ∧
    GetChunkExtents p global_nrows global_ncols nrowchunks ncolchunks =
      { startrow := (innerExtents p global_nrows global_ncols nrowchunks ncolchunks).startrow -
          (if 0 < mychunkrow p ncolchunks then 1 else 0)
        endrow := (innerExtents p global_nrows global_ncols nrowchunks ncolchunks).endrow +
          (if mychunkrow p ncolchunks < nrowchunks - 1 then 1 else 0)
        startcol := (innerExtents p global_nrows global_ncols nrowchunks ncolchunks).startcol -
          (if 0 < mychunkcol p ncolchunks then 1 else 0)
        endcol := (innerExtents p global_nrows global_ncols nrowchunks ncolchunks).endcol +
          (if mychunkcol p ncolchunks < ncolchunks - 1 then 1 else 0) } := by
  have _ := hR
  have _ := hC
  have _ := hN
  obtain ⟨pk, pl, pk0, pk1, pl0, pl1, _⟩ := chunk_coords hM hp0 hp1
  obtain ⟨qk, ql, qk0, qk1, ql0, ql1, _⟩ := chunk_coords hM hq0 hq1
  rw [GetChunkExtents_inner]
  refine ⟨?_, ?_, ?_, ?_, rfl⟩
  · intro h
    have hpos : 0 < mychunkrow p ncolchunks := by rw [pk]; rw [qk, pk] at h; omega
    simp only [innerExtents, h, sub_add_cancel, if_pos hpos]
  · intro h
    have hlt : mychunkrow p ncolchunks < nrowchunks - 1 := by
      rw [pk]; rw [qk, pk] at h; omega
    simp only [innerExtents, h, if_pos hlt]
    omega
  · intro h
    have hpos : 0 < mychunkcol p ncolchunks := by rw [pl]; rw [ql, pl] at h; omega
    simp only [innerExtents, h, sub_add_cancel, if_pos hpos]
  · intro h
    have hlt : mychunkcol p ncolchunks < ncolchunks - 1 := by
      rw [pl]; rw [ql, pl] at h; omega
    simp only [innerExtents, h, if_pos hlt]
    omega

/-- Witness of C16: in the 4 x 4 grid cut into 2 row chunks and 1 column chunk, the
widened `endrow` of rank 0 is the inner `startrow` of rank 1, row 2, and the widened
`startrow` of rank 1 is the inner `endrow` of rank 0, row 1. -/
theorem halo_is_neighbour_boundary_witness :
    (mychunkrow 1 1 = mychunkrow 0 1 + 1 ∧ mychunkrow 0 1 = mychunkrow 1 1 - 1 ∧
      (innerExtents 1 4 4 2 1).startrow = 2 ∧ (innerExtents 0 4 4 2 1).endrow = 1) ∧
    (GetChunkExtents 0 4 4 2 1).endrow = (innerExtents 1 4 4 2 1).startrow ∧
    (GetChunkExtents 1 4 4 2 1).startrow = (innerExtents 0 4 4 2 1).endrow :=
  ⟨by decide,
    (halo_is_neighbour_boundary 4 4 2 1 0 1 (by decide) (by decide) (by decide) (by decide)
      (by decide) (by decide) (by decide) (by decide)).2.1 (by decide),
    (halo_is_neighbour_boundary 4 4 2 1 1 0 (by decide) (by decide) (by decide) (by decide)
      (by decide) (by decide) (by decide) (by decide)).1 (by decide)⟩

/-! ## Safety of the index arithmetic -/

end RBBreakup
